import Mathlib

/-
  Shallow embedding of the libembeddedhal timing/frequency engine
  (src/include/libembeddedhal/frequency.hpp) and the generic driver
  lifecycle (src/include/libembeddedhal/driver.hpp).

  Machine integers are modelled as Nat (for the unsigned 32-bit and 64-bit
  quantities) and Int (for the signed 64-bit cycle counts), with explicit
  bounds hypotheses of the form x < 2 ^ 32 where the C++ type width matters.
  Fallible operations return Except Error.

  The headers math.hpp, percent.hpp, units.hpp and error.hpp of this
  repository are not present under src/; the definitions taken from them
  (rounding_division, distance, multiply, the percent ratio type, the
  time_duration type and the error tags) are modelled from the spec and are
  marked as such in their doc comments.
-/

namespace EmbedHal

/-- Modelled from the spec: the two failure kinds of the engine
(spec section 7): Overflow and ValueTooLarge/OutOfRange.  The C++ code
reports them through boost::leaf error objects (std::errc::value_too_large
in the duty-cycle duration overload). -/
inductive Error where
  | overflow
  | value_too_large
deriving DecidableEq

/-- Modelled from the spec: math.hpp is missing from src/.
`rounding_division(numerator, denominator)` on unsigned operands: integer
division rounded to nearest, ties away from zero (for non-negative operands
that is ties up), per spec sections 4.1 and 8 (rounding_division 5 2 = 3,
rounding_division 4 2 = 2).  Division by zero is a caller contract
violation in the C++ code; the model returns 0 there. -/
def rounding_division (n d : Nat) : Nat :=
  if d = 0 then 0
  else if d ≤ 2 * (n % d) then n / d + 1
  else n / d

/-- Modelled from the spec: math.hpp is missing from src/.
`distance(a, b)`: unsigned absolute difference of two same-width unsigned
integers, used as the cost metric of the divider search; never overflows. -/
def distance (a b : Nat) : Nat :=
  max a b - min a b

/-- Modelled from the spec: math.hpp is missing from src/.
Checked `multiply(a, b)`: multiplies two unsigned integers and fails with
Overflow instead of wrapping when the mathematical product exceeds the
representable range of the (32-bit) result type. -/
def multiply (a b : Nat) : Except Error Nat :=
  if a * b ≤ 2 ^ 32 - 1 then .ok (a * b) else .error .overflow

/-- Modelled from the spec: percent.hpp is missing from src/.
The external Percent ratio type, kept as the (numerator, denominator) pair
it was constructed from; its contract (spec sections 3 and 6): construction
`from_ratio(num, den)`, a value in [0,1] (num ≤ den whenever the
constructing call site respects the contract), and flooring scaling of an
unsigned integer. -/
structure percent where
  num : Nat
  den : Nat
deriving DecidableEq

/-- Modelled from the spec: percent.hpp is missing from src/.
`percent::from_ratio(numerator, denominator)`. -/
def percent.from_ratio (n d : Nat) : percent :=
  ⟨n, d⟩

/-- Modelled from the spec: percent.hpp is missing from src/.
The scaling contract `count * percent → scaled count`, flooring. -/
def percent.scale (count : Nat) (p : percent) : Nat :=
  count * p.num / p.den

/-- frequency.hpp: `struct duty_cycle` — cycle counts of the high and low
side of a signal period, both std::uint32_t (modelled as Nat with < 2^32
hypotheses where the width matters). -/
structure duty_cycle where
  high : Nat
  low : Nat
deriving DecidableEq

/-- std::numeric_limits of std::uint32_t, max(). -/
def UINT32_MAX : Nat := 2 ^ 32 - 1

/-- frequency.hpp lines 51-70: `duty_cycle::operator percent()`.
`overflow_total = uint64(high) + uint64(low)`; if it exceeds UINT32_MAX both
operands are right-shifted by one (the 64-bit total, and the 32-bit high)
before the ratio is formed, otherwise the ratio high / (high+low) is used
directly.  Right shift by one on non-negative values is division by 2. -/
def duty_cycle.toPercent (d : duty_cycle) : percent :=
  let overflow_total := d.high + d.low
  if UINT32_MAX < overflow_total then
    percent.from_ratio (d.high / 2) (overflow_total / 2)
  else
    percent.from_ratio d.high overflow_total

/-- frequency.hpp lines 78-89: `struct frequency` with a single
std::uint32_t value_hz field. -/
structure frequency where
  value_hz : Nat
deriving DecidableEq

/-- frequency.hpp lines 98-102: `operator/(frequency, uint32_t)` — scale a
frequency down by an integer factor with rounding_division. -/
def freqDivNat (f : frequency) (r : Nat) : frequency :=
  ⟨rounding_division f.value_hz r⟩

/-- frequency.hpp lines 115-120: `operator/(frequency, frequency)` — the
integer divider between two frequencies, rounded to nearest. -/
def freqDivFreq (source target : frequency) : Nat :=
  rounding_division source.value_hz target.value_hz

/-- frequency.hpp lines 130-136: `operator*(frequency, Integer)` — scale a
frequency up by an unsigned scalar through the checked multiply; overflow
is propagated as a failure. -/
def freqMul (f : frequency) (scalar : Nat) : Except Error frequency :=
  (multiply f.value_hz scalar).map frequency.mk

/-- frequency.hpp lines 147-160: the cycle-count overload of
`calculate_duty_cycle`: high = p_cycles * p_percent (flooring scale),
low = p_cycles - high. -/
def calculate_duty_cycle (p_cycles : Nat) (p_percent : percent) : duty_cycle :=
  let high := percent.scale p_cycles p_percent
  let low := p_cycles - high
  ⟨high, low⟩

/-- Modelled from the spec: units.hpp is missing from src/.
hal::time_duration (spec section 6): a signed 64-bit count with the
compile-time ratio of std::chrono::nanoseconds (num = 1, den = 10^9). -/
structure time_duration where
  count : Int
deriving DecidableEq

/-- The period denominator of hal::time_duration (nanoseconds). -/
def time_duration.den : Nat := 1000000000

/-- frequency.hpp lines 171-200: `cycles_per(source, duration)`.
The C++ takes absolute_value of the duration count (so the dividend is
non-negative), multiplies by value_hz and the period numerator 1 inside a
signed 64-bit, and rounding-divides by the period denominator.  On the
non-negative domain the signed ties-away-from-zero rounding division agrees
with the unsigned ties-up one, so the model computes in Nat and returns the
signed 64-bit result as Int. -/
def cycles_per (p_source : frequency) (p_duration : time_duration) : Int :=
  let duration := p_duration.count.natAbs
  let count := duration * p_source.value_hz * 1
  Int.ofNat (rounding_division count time_duration.den)

/-- frequency.hpp lines 280-290: the duration overload of
`calculate_duty_cycle`: computes cycles_per, fails with value_too_large if
the count exceeds UINT32_MAX, otherwise delegates to the cycle-count
overload on the (untruncated) count. -/
def calculate_duty_cycle_of_duration (p_source_clock : frequency)
    (p_duration : time_duration) (p_percent : percent) :
    Except Error duty_cycle :=
  let cycles := cycles_per p_source_clock p_duration
  if (UINT32_MAX : Int) < cycles then .error .value_too_large
  else .ok (calculate_duty_cycle cycles.toNat p_percent)

/-- frequency.hpp lines 295-303: `enum class divider_rule`. -/
inductive divider_rule where
  | higher
  | lower
  | closest
deriving DecidableEq

/-- frequency.hpp lines 334-346: the `is_applicable` lambda of `closest`:
lower accepts candidate ≤ target, higher accepts candidate ≥ target,
closest accepts all (frequency comparison is by value_hz). -/
def is_applicable (rule : divider_rule) (candidate target : frequency) : Bool :=
  match rule with
  | .lower => decide (candidate.value_hz ≤ target.value_hz)
  | .higher => decide (target.value_hz ≤ candidate.value_hz)
  | .closest => true

/-- frequency.hpp lines 348-357: the scanning loop of `closest`, carrying the
running best position (none = the p_last sentinel) and the running best
cost; a candidate is taken only when applicable and of strictly smaller
cost than the running best. -/
def closestLoop (src tgt : frequency) (rule : divider_rule) :
    List Nat → Nat → Option Nat → Nat → Option Nat
  | [], _, best, _ => best
  | d :: rest, idx, best, best_cost =>
    let candidate := freqDivNat src d
    if is_applicable rule candidate tgt = true ∧
        distance candidate.value_hz tgt.value_hz < best_cost then
      closestLoop src tgt rule rest (idx + 1) (some idx)
        (distance candidate.value_hz tgt.value_hz)
    else
      closestLoop src tgt rule rest (idx + 1) best best_cost

/-- frequency.hpp lines 323-359: `closest(source, first, last, target, rule)`
over a list of candidate divider values; the returned iterator is modelled
as the index into the list, with none standing for the p_last sentinel.
best starts at p_last and best_cost at UINT32_MAX. -/
def closest (p_source : frequency) (dividers : List Nat) (p_target : frequency)
    (p_divider_rule : divider_rule) : Option Nat :=
  closestLoop p_source p_target p_divider_rule dividers 0 none UINT32_MAX

/-- The applicability of the divider at one position of the search, as the
source's is_applicable lambda sees it (candidate = source / divider). -/
def applicableAt (src tgt : frequency) (rule : divider_rule) (d : Nat) : Bool :=
  is_applicable rule (freqDivNat src d) tgt

/-- The cost of the divider at one position of the search, as the source's
cost lambda sees it: distance of the candidate frequency to the target. -/
def costAt (src tgt : frequency) (d : Nat) : Nat :=
  distance (freqDivNat src d).value_hz tgt.value_hz

/-- driver.hpp lines 129-136: the private state of `class driver<settings_t>`:
the mutable (staged) settings, the settings saved at the last successful
commit, and the initialized flag. -/
structure driverState (σ : Type) where
  m_settings : σ
  m_initialized_settings : σ
  m_initialized : Bool

/-- driver.hpp line 51: the default-constructed driver: default-constructed
settings in both slots and m_initialized = false. -/
def freshDriver (σ : Type) [Inhabited σ] : driverState σ :=
  ⟨default, default, false⟩

/-- driver.hpp lines 72-82: `driver::initialize()`.  The driver-specific
body `driver_initialize()` is a pure virtual hook of the derived class; it
may read and mutate the staged settings (through `settings()`) and may
fail, so it is modelled as a function from the staged settings to either a
failure or the staged settings it leaves behind.  On failure the failure is
returned and nothing is committed; on success the (post-body) staged
settings are copied into m_initialized_settings and m_initialized is set. -/
def initDriver {σ ε : Type} (body : σ → Except ε σ) (d : driverState σ) :
    Except ε Unit × driverState σ :=
  match body d.m_settings with
  | .error e => (.error e, d)
  | .ok s => (.ok (), ⟨s, s, true⟩)

/-- driver.hpp line 89: `set_as_uninitialized()` — clears the flag only. -/
def setAsUninitialized {σ : Type} (d : driverState σ) : driverState σ :=
  { d with m_initialized := false }

/-- driver.hpp line 96: `is_initialized()`. -/
def isInitialized {σ : Type} (d : driverState σ) : Bool :=
  d.m_initialized

/-- driver.hpp lines 115-118: `initialized_settings()` — read access to the
last committed settings. -/
def initializedSettings {σ : Type} (d : driverState σ) : σ :=
  d.m_initialized_settings

example : rounding_division 5 2 = 3 := by decide
example : rounding_division 4 2 = 2 := by decide
example : calculate_duty_cycle 10 (percent.from_ratio 1 2) = ⟨5, 5⟩ := by decide
example : calculate_duty_cycle 10 (percent.from_ratio 1 3) = ⟨3, 7⟩ := by decide
example : closest ⟨1000000⟩ [1, 2, 4, 8, 16] ⟨70000⟩ divider_rule.closest
    = some 4 := by decide
example : closest ⟨1000000⟩ [1, 2, 4, 8, 16] ⟨70000⟩ divider_rule.lower
    = some 4 := by decide
example : closest ⟨1000000⟩ [1, 2, 4, 8, 16] ⟨70000⟩ divider_rule.higher
    = some 3 := by decide
example : closest ⟨0⟩ [1] ⟨UINT32_MAX⟩ divider_rule.closest = none := by decide

/-- C3: for every unsigned 32-bit cycle count and every percent in [0,1]
(num ≤ den per the Percent contract), calculate_duty_cycle returns high =
floor(cycles * num / den), low = cycles - high, with high ≤ cycles; and the
two concrete examples of the spec hold. -/
theorem calculate_duty_cycle_spec (p_cycles : Nat) (p : percent)
    (hc : p_cycles ≤ UINT32_MAX) (hp : p.num ≤ p.den) :
    (calculate_duty_cycle p_cycles p).high = p_cycles * p.num / p.den ∧
    (calculate_duty_cycle p_cycles p).low
      = p_cycles - (calculate_duty_cycle p_cycles p).high ∧
    (calculate_duty_cycle p_cycles p).high ≤ p_cycles ∧
    calculate_duty_cycle 10 (percent.from_ratio 1 2) = ⟨5, 5⟩ ∧
    calculate_duty_cycle 10 (percent.from_ratio 1 3) = ⟨3, 7⟩ := by
  refine ⟨rfl, rfl, ?_, by decide, by decide⟩
  rcases Nat.eq_zero_or_pos p.den with h0 | hpos
  · show p_cycles * p.num / p.den ≤ p_cycles
    rw [h0]
    simp
  · calc p_cycles * p.num / p.den
        ≤ p_cycles * p.den / p.den :=
          Nat.div_le_div_right (Nat.mul_le_mul_left _ hp)
      _ = p_cycles := Nat.mul_div_cancel _ hpos

/-- Witness for calculate_duty_cycle_spec at cycles = 10,
percent = from_ratio 1 2. -/
theorem calculate_duty_cycle_spec_witness :
    (calculate_duty_cycle 10 (percent.from_ratio 1 2)).high
      = 10 * (percent.from_ratio 1 2).num / (percent.from_ratio 1 2).den ∧
    (calculate_duty_cycle 10 (percent.from_ratio 1 2)).low
      = 10 - (calculate_duty_cycle 10 (percent.from_ratio 1 2)).high ∧
    (calculate_duty_cycle 10 (percent.from_ratio 1 2)).high ≤ 10 ∧
    calculate_duty_cycle 10 (percent.from_ratio 1 2) = ⟨5, 5⟩ ∧
    calculate_duty_cycle 10 (percent.from_ratio 1 3) = ⟨3, 7⟩ :=
  calculate_duty_cycle_spec 10 (percent.from_ratio 1 2) (by decide) (by decide)

/-- C2: the duration overload of calculate_duty_cycle fails with
value_too_large exactly when cycles_per exceeds UINT32_MAX, and otherwise
returns exactly the cycle-count overload applied to the untruncated cycle
count. -/
theorem calculate_duty_cycle_of_duration_spec (f : frequency)
    (t : time_duration) (p : percent) :
    ((UINT32_MAX : Int) < cycles_per f t →
      calculate_duty_cycle_of_duration f t p = .error .value_too_large) ∧
    (cycles_per f t ≤ (UINT32_MAX : Int) →
      calculate_duty_cycle_of_duration f t p
        = .ok (calculate_duty_cycle (cycles_per f t).toNat p)) := by
  refine ⟨fun hbig => ?_, fun hfit => ?_⟩
  · simp only [calculate_duty_cycle_of_duration]
    rw [if_pos hbig]
  · simp only [calculate_duty_cycle_of_duration]
    rw [if_neg (not_lt.mpr hfit)]

/-- Witness for calculate_duty_cycle_of_duration_spec: a 10000-second
duration at 1 GHz overflows the 32-bit cycle domain and fails; a 1000 ns
duration at 1 GHz fits and delegates to the cycle-count overload. -/
theorem calculate_duty_cycle_of_duration_spec_witness :
    calculate_duty_cycle_of_duration ⟨1000000000⟩ ⟨10000000000000⟩
      (percent.from_ratio 1 2) = .error .value_too_large ∧
    calculate_duty_cycle_of_duration ⟨1000000000⟩ ⟨1000⟩
      (percent.from_ratio 1 2)
      = .ok (calculate_duty_cycle (cycles_per ⟨1000000000⟩ ⟨1000⟩).toNat
          (percent.from_ratio 1 2)) :=
  ⟨(calculate_duty_cycle_of_duration_spec ⟨1000000000⟩ ⟨10000000000000⟩
      (percent.from_ratio 1 2)).1 (by decide),
   (calculate_duty_cycle_of_duration_spec ⟨1000000000⟩ ⟨1000⟩
      (percent.from_ratio 1 2)).2 (by decide)⟩

/-- C4: frequency * scalar returns the exact mathematical product whenever
it fits the unsigned 32-bit destination width, and an Overflow failure
(never a wrapped value) whenever it does not. -/
theorem freqMul_checked (f : frequency) (s : Nat) :
    (f.value_hz * s ≤ UINT32_MAX → freqMul f s = .ok ⟨f.value_hz * s⟩) ∧
    (UINT32_MAX < f.value_hz * s → freqMul f s = .error .overflow) := by
  refine ⟨fun hfit => ?_, fun hbig => ?_⟩
  · simp only [freqMul, multiply, UINT32_MAX] at *
    rw [if_pos hfit]
    rfl
  · simp only [freqMul, multiply, UINT32_MAX] at *
    rw [if_neg (by omega)]
    rfl

/-- Witness for freqMul_checked: 2 MHz * 4 fits; 4e9 Hz * 2 overflows. -/
theorem freqMul_checked_witness :
    freqMul ⟨2000000⟩ 4 = .ok ⟨2000000 * 4⟩ ∧
    freqMul ⟨4000000000⟩ 2 = .error .overflow :=
  ⟨(freqMul_checked ⟨2000000⟩ 4).1 (by decide),
   (freqMul_checked ⟨4000000000⟩ 2).2 (by decide)⟩

/-- C10: the duty_cycle → percent conversion always calls
percent::from_ratio with numerator ≤ denominator, in both the halved
(overflowing sum) and non-halved branches. -/
theorem toPercent_ratio_in_range (d : duty_cycle)
    (hh : d.high ≤ UINT32_MAX) (hl : d.low ≤ UINT32_MAX) :
    (duty_cycle.toPercent d).num ≤ (duty_cycle.toPercent d).den := by
  simp only [duty_cycle.toPercent, percent.from_ratio]
  by_cases hov : UINT32_MAX < d.high + d.low
  · rw [if_pos hov]
    exact Nat.div_le_div_right (Nat.le_add_right _ _)
  · rw [if_neg hov]
    exact Nat.le_add_right _ _

/-- Witness for toPercent_ratio_in_range at the maximal duty cycle, which
takes the halved branch. -/
theorem toPercent_ratio_in_range_witness :
    (duty_cycle.toPercent ⟨4294967295, 4294967295⟩).num
      ≤ (duty_cycle.toPercent ⟨4294967295, 4294967295⟩).den :=
  toPercent_ratio_in_range ⟨4294967295, 4294967295⟩ (by decide) (by decide)

/-- C6: converting a duty cycle with representable total to percent and
back through calculate_duty_cycle reproduces each component within ±1
cycle. -/
theorem duty_cycle_roundtrip (h l : Nat) (hs : h + l ≤ UINT32_MAX) :
    distance (calculate_duty_cycle (h + l) (duty_cycle.toPercent ⟨h, l⟩)).high h
      ≤ 1 ∧
    distance (calculate_duty_cycle (h + l) (duty_cycle.toPercent ⟨h, l⟩)).low l
      ≤ 1 := by
  have hp : duty_cycle.toPercent ⟨h, l⟩ = percent.from_ratio h (h + l) := by
    simp only [duty_cycle.toPercent]
    rw [if_neg (not_lt.mpr hs)]
  rw [hp]
  have hkey : (h + l) * h / (h + l) = h := by
    rcases Nat.eq_zero_or_pos (h + l) with h0 | hpos
    · have hz : h = 0 := by omega
      rw [h0, hz]
    · exact Nat.mul_div_cancel_left h hpos
  have hhigh : (calculate_duty_cycle (h + l) (percent.from_ratio h (h + l))).high
      = h := hkey
  have hlow : (calculate_duty_cycle (h + l) (percent.from_ratio h (h + l))).low
      = l := by
    show (h + l) - (h + l) * h / (h + l) = l
    rw [hkey]
    omega
  rw [hhigh, hlow]
  constructor <;> simp [distance]

/-- Witness for duty_cycle_roundtrip at high = 3, low = 7. -/
theorem duty_cycle_roundtrip_witness :
    distance (calculate_duty_cycle (3 + 7) (duty_cycle.toPercent ⟨3, 7⟩)).high 3
      ≤ 1 ∧
    distance (calculate_duty_cycle (3 + 7) (duty_cycle.toPercent ⟨3, 7⟩)).low 7
      ≤ 1 :=
  duty_cycle_roundtrip 3 7 (by decide)

/-- C7: if the driver-specific body fails on an uninitialized driver, the
failure is propagated unchanged, is_initialized stays false and the
committed settings are untouched. -/
theorem initDriver_failure {σ ε : Type} (d : driverState σ)
    (body : σ → Except ε σ) (e : ε)
    (hfail : body d.m_settings = .error e)
    (hun : d.m_initialized = false) :
    (initDriver body d).1 = .error e ∧
    isInitialized (initDriver body d).2 = false ∧
    initializedSettings (initDriver body d).2 = initializedSettings d := by
  simp [initDriver, hfail, isInitialized, initializedSettings, hun]

/-- Witness for initDriver_failure on a concrete Nat-settings driver whose
body fails with error 3. -/
theorem initDriver_failure_witness :
    (initDriver (fun _ => (Except.error 3 : Except Nat Nat))
        ⟨0, 7, false⟩).1 = .error 3 ∧
    isInitialized (initDriver (fun _ => (Except.error 3 : Except Nat Nat))
        ⟨0, 7, false⟩).2 = false ∧
    initializedSettings (initDriver (fun _ => (Except.error 3 : Except Nat Nat))
        ⟨0, 7, false⟩).2
      = initializedSettings (⟨0, 7, false⟩ : driverState Nat) :=
  @initDriver_failure Nat Nat ⟨0, 7, false⟩ (fun _ => Except.error 3) 3 rfl rfl

/-- C8 (amended): a fresh driver is uninitialized; after a successful
initialize the driver is initialized and the committed settings equal the
staged settings as the body left them (equal to those staged at the moment
of the call whenever the body leaves them unchanged); after
set_as_uninitialized the flag is false while the committed settings are
unchanged from the last commit. -/
theorem driver_lifecycle {σ ε : Type} [Inhabited σ] (d : driverState σ)
    (body : σ → Except ε σ) (s : σ) (hok : body d.m_settings = .ok s) :
    isInitialized (freshDriver σ) = false ∧
    (initDriver body d).1 = .ok () ∧
    isInitialized (initDriver body d).2 = true ∧
    initializedSettings (initDriver body d).2 = s ∧
    (body d.m_settings = .ok d.m_settings →
      initializedSettings (initDriver body d).2 = d.m_settings) ∧
    isInitialized (setAsUninitialized (initDriver body d).2) = false ∧
    initializedSettings (setAsUninitialized (initDriver body d).2)
      = initializedSettings (initDriver body d).2 := by
  refine ⟨rfl, ?_, ?_, ?_, ?_, ?_, ?_⟩ <;>
    simp [initDriver, hok, isInitialized, initializedSettings,
      setAsUninitialized]

/-- Witness for driver_lifecycle on a concrete Nat-settings driver whose
body succeeds without touching the staged settings. -/
theorem driver_lifecycle_witness :
    isInitialized (freshDriver Nat) = false ∧
    (initDriver (fun s => (Except.ok s : Except Nat Nat)) ⟨5, 0, false⟩).1
      = .ok () ∧
    isInitialized (initDriver (fun s => (Except.ok s : Except Nat Nat))
      ⟨5, 0, false⟩).2 = true ∧
    initializedSettings (initDriver (fun s => (Except.ok s : Except Nat Nat))
      ⟨5, 0, false⟩).2 = 5 ∧
    ((fun s => (Except.ok s : Except Nat Nat)) 5 = .ok 5 →
      initializedSettings (initDriver (fun s => (Except.ok s : Except Nat Nat))
        ⟨5, 0, false⟩).2 = 5) ∧
    isInitialized (setAsUninitialized
      (initDriver (fun s => (Except.ok s : Except Nat Nat)) ⟨5, 0, false⟩).2)
      = false ∧
    initializedSettings (setAsUninitialized
      (initDriver (fun s => (Except.ok s : Except Nat Nat)) ⟨5, 0, false⟩).2)
      = initializedSettings
          (initDriver (fun s => (Except.ok s : Except Nat Nat)) ⟨5, 0, false⟩).2 :=
  @driver_lifecycle Nat Nat _ ⟨5, 0, false⟩ (fun s => Except.ok s) 5 rfl

/-- C8 counterexample: a driver-specific body may mutate the staged
settings through settings() before succeeding; the commit then stores the
post-body staged settings, not the settings staged at the moment of the
call (staged 0 at the call, committed 1 afterwards). -/
theorem driver_commit_post_body_cex :
    (initDriver (fun s => (Except.ok (s + 1) : Except Unit Nat))
        ⟨0, 0, false⟩).1 = .ok () ∧
    initializedSettings (initDriver (fun s => (Except.ok (s + 1) : Except Unit Nat))
        ⟨0, 0, false⟩).2
      ≠ (⟨0, 0, false⟩ : driverState Nat).m_settings := by
  exact ⟨rfl, by decide⟩

/-- Characterization of the scanning loop of `closest`: either no position
of the remaining list is applicable with cost strictly below the running
best cost, and the loop returns the running best; or the loop returns the
absolute position of the first remaining element realizing the least cost
among applicable elements below the running best, and that element is of
minimal cost among all applicable remaining elements, strictly smaller
than at every earlier applicable remaining position. -/
theorem closestLoop_spec (src tgt : frequency) (rule : divider_rule) :
    ∀ (l : List Nat) (idx : Nat) (best : Option Nat) (bc : Nat),
      (closestLoop src tgt rule l idx best bc = best ∧
        ∀ k (hk : k < l.length),
          applicableAt src tgt rule (l.get ⟨k, hk⟩) = true →
          ¬ costAt src tgt (l.get ⟨k, hk⟩) < bc) ∨
      (∃ k, ∃ hk : k < l.length,
        closestLoop src tgt rule l idx best bc = some (idx + k) ∧
        applicableAt src tgt rule (l.get ⟨k, hk⟩) = true ∧
        costAt src tgt (l.get ⟨k, hk⟩) < bc ∧
        (∀ j (hj : j < l.length),
          applicableAt src tgt rule (l.get ⟨j, hj⟩) = true →
          costAt src tgt (l.get ⟨k, hk⟩) ≤ costAt src tgt (l.get ⟨j, hj⟩)) ∧
        (∀ j (hj : j < l.length), j < k →
          applicableAt src tgt rule (l.get ⟨j, hj⟩) = true →
          costAt src tgt (l.get ⟨k, hk⟩) < costAt src tgt (l.get ⟨j, hj⟩))) := by
  intro l
  induction l with
  | nil =>
    intro idx best bc
    left
    exact ⟨rfl, fun k hk => absurd hk (by simp)⟩
  | cons d rest ih =>
    intro idx best bc
    by_cases hcond : is_applicable rule (freqDivNat src d) tgt = true ∧
        distance (freqDivNat src d).value_hz tgt.value_hz < bc
    · have hstep : closestLoop src tgt rule (d :: rest) idx best bc
          = closestLoop src tgt rule rest (idx + 1) (some idx)
              (distance (freqDivNat src d).value_hz tgt.value_hz) := by
        simp only [closestLoop]
        rw [if_pos hcond]
      rcases ih (idx + 1) (some idx)
          (distance (freqDivNat src d).value_hz tgt.value_hz) with
        ⟨heq, hall⟩ | ⟨k, hk, heq, helig, hlt, hmin, hstrict⟩
      · right
        refine ⟨0, by simp, ?_, hcond.1, hcond.2, ?_, ?_⟩
        · rw [hstep, heq, Nat.add_zero]
        · intro j hj happ
          cases j with
          | zero => exact le_refl _
          | succ j' =>
            have hj' : j' < rest.length := by simpa using hj
            exact Nat.le_of_not_lt (hall j' hj' happ)
        · intro j hj hj0
          exact absurd hj0 (Nat.not_lt_zero j)
      · right
        refine ⟨k + 1, by simpa using Nat.succ_lt_succ hk, ?_, helig, ?_, ?_, ?_⟩
        · rw [hstep, heq]
          congr 1
          omega
        · exact lt_trans hlt hcond.2
        · intro j hj happ
          cases j with
          | zero => exact le_of_lt hlt
          | succ j' =>
            have hj' : j' < rest.length := by simpa using hj
            exact hmin j' hj' happ
        · intro j hj hjk happ
          cases j with
          | zero => exact hlt
          | succ j' =>
            have hj' : j' < rest.length := by simpa using hj
            exact hstrict j' hj' (by omega) happ
    · have hstep : closestLoop src tgt rule (d :: rest) idx best bc
          = closestLoop src tgt rule rest (idx + 1) best bc := by
        simp only [closestLoop]
        rw [if_neg hcond]
      have hhead : applicableAt src tgt rule d = true →
          ¬ costAt src tgt d < bc := fun happ hlt => hcond ⟨happ, hlt⟩
      rcases ih (idx + 1) best bc with
        ⟨heq, hall⟩ | ⟨k, hk, heq, helig, hlt, hmin, hstrict⟩
      · left
        refine ⟨hstep.trans heq, ?_⟩
        intro j hj happ
        cases j with
        | zero => exact hhead happ
        | succ j' =>
          have hj' : j' < rest.length := by simpa using hj
          exact hall j' hj' happ
      · right
        refine ⟨k + 1, by simpa using Nat.succ_lt_succ hk, ?_, helig, hlt, ?_, ?_⟩
        · rw [hstep, heq]
          congr 1
          omega
        · intro j hj happ
          cases j with
          | zero =>
            have hge := Nat.le_of_not_lt (hhead happ)
            show costAt src tgt (rest.get ⟨k, hk⟩) ≤ costAt src tgt d
            omega
          | succ j' =>
            have hj' : j' < rest.length := by simpa using hj
            exact hmin j' hj' happ
        · intro j hj hjk happ
          cases j with
          | zero =>
            have hge := Nat.le_of_not_lt (hhead happ)
            show costAt src tgt (rest.get ⟨k, hk⟩) < costAt src tgt d
            omega
          | succ j' =>
            have hj' : j' < rest.length := by simpa using hj
            exact hstrict j' hj' (by omega) happ

/-- C1 (amended): `closest` returns none exactly when no candidate is
applicable with distance strictly below UINT32_MAX (in particular when the
sequence is empty or no candidate is eligible); and it returns position i
exactly when the candidate at i is applicable under the rule, has distance
to the target strictly below UINT32_MAX, minimal among all applicable
candidates, and strictly smaller than at every earlier applicable
position (first-seen wins ties).  Any returned position is in range. -/
theorem closest_selects_first_best (src : frequency) (l : List Nat)
    (tgt : frequency) (rule : divider_rule) :
    (closest src l tgt rule = none ↔
      ∀ k (hk : k < l.length),
        applicableAt src tgt rule (l.get ⟨k, hk⟩) = true →
        UINT32_MAX ≤ costAt src tgt (l.get ⟨k, hk⟩)) ∧
    (∀ i (hi : i < l.length),
      (closest src l tgt rule = some i ↔
        applicableAt src tgt rule (l.get ⟨i, hi⟩) = true ∧
        costAt src tgt (l.get ⟨i, hi⟩) < UINT32_MAX ∧
        (∀ j (hj : j < l.length),
          applicableAt src tgt rule (l.get ⟨j, hj⟩) = true →
          costAt src tgt (l.get ⟨i, hi⟩) ≤ costAt src tgt (l.get ⟨j, hj⟩)) ∧
        (∀ j (hj : j < l.length), j < i →
          applicableAt src tgt rule (l.get ⟨j, hj⟩) = true →
          costAt src tgt (l.get ⟨i, hi⟩) < costAt src tgt (l.get ⟨j, hj⟩)))) ∧
    (∀ i, closest src l tgt rule = some i → i < l.length) := by
  rcases closestLoop_spec src tgt rule l 0 none UINT32_MAX with
    ⟨heq, hall⟩ | ⟨k, hk, heq, helig, hlt, hmin, hstrict⟩
  · have hres : closest src l tgt rule = none := heq
    refine ⟨⟨fun _ k hk ha => Nat.le_of_not_lt (hall k hk ha), fun _ => hres⟩,
      ?_, ?_⟩
    · intro i hi
      constructor
      · intro hsome
        exact absurd (hres.symm.trans hsome) (by simp)
      · intro hrhs
        exact absurd hrhs.2.1 (hall i hi hrhs.1)
    · intro i hsome
      exact absurd (hres.symm.trans hsome) (by simp)
  · have hres : closest src l tgt rule = some k := by
      have h0 : closest src l tgt rule
          = closestLoop src tgt rule l 0 none UINT32_MAX := rfl
      rw [h0, heq, Nat.zero_add]
    refine ⟨?_, ?_, ?_⟩
    · constructor
      · intro hnone
        exact absurd (hres.symm.trans hnone) (by simp)
      · intro hforall
        exact absurd hlt (not_lt.mpr (hforall k hk helig))
    · intro i hi
      constructor
      · intro hsome
        obtain rfl : i = k := by
          have := hres.symm.trans hsome
          exact (Option.some.inj this).symm
        exact ⟨helig, hlt, hmin, hstrict⟩
      · intro hrhs
        have h1 : costAt src tgt (l.get ⟨k, hk⟩)
            ≤ costAt src tgt (l.get ⟨i, hi⟩) := hmin i hi hrhs.1
        have h2 : costAt src tgt (l.get ⟨i, hi⟩)
            ≤ costAt src tgt (l.get ⟨k, hk⟩) := hrhs.2.2.1 k hk helig
        rcases Nat.lt_trichotomy i k with hik | hik | hik
        · exact absurd (lt_of_lt_of_le (hstrict i hi hik hrhs.1) h2)
            (lt_irrefl _)
        · rw [hres, hik]
        · exact absurd (lt_of_lt_of_le (hrhs.2.2.2 k hk hik helig) h1)
            (lt_irrefl _)
    · intro i hsome
      obtain rfl : i = k := by
        have := hres.symm.trans hsome
        exact (Option.some.inj this).symm
      exact hk

/-- Witness for closest_selects_first_best: the spec's worked example,
source 1 MHz, dividers [1,2,4,8,16], target 70 kHz, rule closest, where
position 4 (divider 16, candidate 62500 Hz) is returned. -/
theorem closest_selects_first_best_witness :
    closest ⟨1000000⟩ [1, 2, 4, 8, 16] ⟨70000⟩ divider_rule.closest = some 4 ∧
    4 < ([1, 2, 4, 8, 16] : List Nat).length :=
  ⟨by decide,
    (closest_selects_first_best ⟨1000000⟩ [1, 2, 4, 8, 16] ⟨70000⟩
      divider_rule.closest).2.2 4 (by decide)⟩

/-- C1 counterexample: a non-empty sequence whose sole candidate is
eligible (rule closest accepts all), hence is trivially the eligible
candidate of strictly smallest distance, yet `closest` returns the end
sentinel because that distance equals the initial best cost UINT32_MAX:
source 0 Hz, divider 1, target UINT32_MAX Hz. -/
theorem closest_eligible_not_selected_cex :
    ([1] : List Nat) ≠ [] ∧
    applicableAt ⟨0⟩ ⟨UINT32_MAX⟩ divider_rule.closest 1 = true ∧
    closest ⟨0⟩ [1] ⟨UINT32_MAX⟩ divider_rule.closest = none := by
  exact ⟨by decide, by decide, by decide⟩

/-- C9: `closest` never selects a candidate whose distance to the target is
exactly UINT32_MAX (the initial running best cost, which a candidate must
strictly undercut); and on a concrete input where the only eligible
candidate has exactly that distance, the end sentinel is returned even
though an eligible candidate exists. -/
theorem closest_never_max_distance :
    (∀ (src : frequency) (l : List Nat) (tgt : frequency)
        (rule : divider_rule) (i : Nat),
      closest src l tgt rule = some i →
      ∃ hi : i < l.length,
        costAt src tgt (l.get ⟨i, hi⟩) ≠ UINT32_MAX) ∧
    (closest ⟨UINT32_MAX⟩ [1] ⟨0⟩ divider_rule.closest = none ∧
      applicableAt ⟨UINT32_MAX⟩ ⟨0⟩ divider_rule.closest 1 = true ∧
      costAt ⟨UINT32_MAX⟩ ⟨0⟩ 1 = UINT32_MAX) := by
  constructor
  · intro src l tgt rule i hsome
    rcases closestLoop_spec src tgt rule l 0 none UINT32_MAX with
      ⟨heq, _⟩ | ⟨k, hk, heq, _, hlt, _, _⟩
    · have hsome' : closestLoop src tgt rule l 0 none UINT32_MAX
          = some i := hsome
      rw [heq] at hsome'
      exact absurd hsome' (by simp)
    · have hsome' : closestLoop src tgt rule l 0 none UINT32_MAX
          = some i := hsome
      rw [heq] at hsome'
      obtain rfl : i = k := by
        have := Option.some.inj hsome'
        omega
      exact ⟨hk, Nat.ne_of_lt hlt⟩
  · exact ⟨by decide, by decide, by decide⟩

/-- Witness for closest_never_max_distance: applied at the lower-rule
worked example of the spec, where position 4 is selected. -/
theorem closest_never_max_distance_witness :
    closest ⟨1000000⟩ [1, 2, 4, 8, 16] ⟨70000⟩ divider_rule.lower = some 4 ∧
    ∃ hi : 4 < ([1, 2, 4, 8, 16] : List Nat).length,
      costAt ⟨1000000⟩ ⟨70000⟩ (([1, 2, 4, 8, 16] : List Nat).get ⟨4, hi⟩)
        ≠ UINT32_MAX :=
  ⟨by decide,
    closest_never_max_distance.1 ⟨1000000⟩ [1, 2, 4, 8, 16] ⟨70000⟩
      divider_rule.lower 4 (by decide)⟩

/-- Halving both operands of a ratio by truncating division moves the
cross products by at most t/2: for h ≤ t,
h/2 * t and h * (t/2) differ by at most t/2 in either direction. -/
theorem halving_cross_bounds (h t : Nat) (hle : h ≤ t) :
    h / 2 * t ≤ h * (t / 2) + t / 2 ∧ h * (t / 2) ≤ h / 2 * t + t / 2 := by
  have hab : h / 2 ≤ t / 2 := Nat.div_le_div_right hle
  obtain ⟨a, m, ha, hm, hhd⟩ : ∃ a m, h / 2 = a ∧ h % 2 = m ∧ h = 2 * a + m :=
    ⟨h / 2, h % 2, rfl, rfl, by omega⟩
  obtain ⟨b, n, hb, hn, htd⟩ : ∃ b n, t / 2 = b ∧ t % 2 = n ∧ t = 2 * b + n :=
    ⟨t / 2, t % 2, rfl, rfl, by omega⟩
  have hm1 : m ≤ 1 := by omega
  have hn1 : n ≤ 1 := by omega
  rw [ha, hb] at hab
  rw [ha, hb, hhd, htd]
  have p1 : a * n ≤ a := by
    calc a * n ≤ a * 1 := Nat.mul_le_mul_left a hn1
      _ = a := Nat.mul_one a
  have p2 : m * b ≤ b := by
    calc m * b ≤ 1 * b := Nat.mul_le_mul_right b hm1
      _ = b := Nat.one_mul b
  constructor
  · nlinarith [p1, p2, hab]
  · nlinarith [p1, p2, hab]

/-- C5: when high + low exceeds UINT32_MAX, the duty_cycle → percent
conversion forms the ratio from both operands right-shifted by one; the
halved ratio differs from the unhalved ratio high/(high+low) by at most
1/(high+low) (the documented odd-input low-bit loss), and equals it
exactly when both cycle counts are even. -/
theorem toPercent_overflow_halving (d : duty_cycle)
    (hh : d.high ≤ UINT32_MAX) (hl : d.low ≤ UINT32_MAX)
    (hov : UINT32_MAX < d.high + d.low) :
    duty_cycle.toPercent d
      = percent.from_ratio (d.high / 2) ((d.high + d.low) / 2) ∧
    |((d.high / 2 : Nat) : ℚ) / (((d.high + d.low) / 2 : Nat) : ℚ)
        - ((d.high : Nat) : ℚ) / ((d.high + d.low : Nat) : ℚ)|
      ≤ 1 / ((d.high + d.low : Nat) : ℚ) ∧
    (d.high % 2 = 0 → d.low % 2 = 0 →
      ((d.high / 2 : Nat) : ℚ) / (((d.high + d.low) / 2 : Nat) : ℚ)
        = ((d.high : Nat) : ℚ) / ((d.high + d.low : Nat) : ℚ)) := by
  have hM : UINT32_MAX = 4294967295 := rfl
  rw [hM] at hov
  have htpos : 0 < d.high + d.low := by omega
  have hbpos : 0 < (d.high + d.low) / 2 := by omega
  have htq : (0 : ℚ) < ((d.high + d.low : Nat) : ℚ) := by
    exact_mod_cast htpos
  have hbq : (0 : ℚ) < (((d.high + d.low) / 2 : Nat) : ℚ) := by
    exact_mod_cast hbpos
  obtain ⟨k1, k2⟩ := halving_cross_bounds d.high (d.high + d.low)
    (Nat.le_add_right _ _)
  refine ⟨?_, ?_, ?_⟩
  · simp only [duty_cycle.toPercent]
    rw [if_pos (by omega : UINT32_MAX < d.high + d.low)]
  · rw [div_sub_div _ _ (ne_of_gt hbq) (ne_of_gt htq), abs_div,
      abs_of_pos (mul_pos hbq htq),
      div_le_div_iff₀ (mul_pos hbq htq) htq, one_mul]
    have c1 : ((d.high / 2 * (d.high + d.low) : Nat) : ℚ)
        ≤ ((d.high * ((d.high + d.low) / 2) + (d.high + d.low) / 2 : Nat) : ℚ) :=
      Nat.cast_le.mpr k1
    have c2 : ((d.high * ((d.high + d.low) / 2) : Nat) : ℚ)
        ≤ ((d.high / 2 * (d.high + d.low) + (d.high + d.low) / 2 : Nat) : ℚ) :=
      Nat.cast_le.mpr k2
    have key : |((d.high / 2 : Nat) : ℚ) * ((d.high + d.low : Nat) : ℚ)
        - (((d.high + d.low) / 2 : Nat) : ℚ) * ((d.high : Nat) : ℚ)|
        ≤ (((d.high + d.low) / 2 : Nat) : ℚ) := by
      rw [abs_le]
      push_cast at c1 c2 ⊢
      constructor <;> linarith
    exact mul_le_mul_of_nonneg_right key (le_of_lt htq)
  · intro heven hleven
    have hteven : (d.high + d.low) % 2 = 0 := by omega
    have e1 : ((d.high / 2 : Nat) : ℚ) = ((d.high : Nat) : ℚ) / 2 :=
      Nat.cast_div (Nat.dvd_of_mod_eq_zero heven) (by norm_num)
    have e2 : (((d.high + d.low) / 2 : Nat) : ℚ)
        = ((d.high + d.low : Nat) : ℚ) / 2 :=
      Nat.cast_div (Nat.dvd_of_mod_eq_zero hteven) (by norm_num)
    rw [e1, e2, div_div_div_comm]
    norm_num

/-- Witness for toPercent_overflow_halving at the duty cycle
{high: 4294967294, low: 2}, whose 64-bit total 4294967296 overflows the
32-bit width. -/
theorem toPercent_overflow_halving_witness :
    duty_cycle.toPercent ⟨4294967294, 2⟩
      = percent.from_ratio (4294967294 / 2) ((4294967294 + 2) / 2) ∧
    |(((4294967294 : Nat) / 2 : Nat) : ℚ)
          / ((((4294967294 + 2 : Nat)) / 2 : Nat) : ℚ)
        - ((4294967294 : Nat) : ℚ) / ((4294967294 + 2 : Nat) : ℚ)|
      ≤ 1 / ((4294967294 + 2 : Nat) : ℚ) ∧
    ((4294967294 : Nat) % 2 = 0 → (2 : Nat) % 2 = 0 →
      (((4294967294 : Nat) / 2 : Nat) : ℚ)
          / ((((4294967294 + 2 : Nat)) / 2 : Nat) : ℚ)
        = ((4294967294 : Nat) : ℚ) / ((4294967294 + 2 : Nat) : ℚ)) :=
  toPercent_overflow_halving ⟨4294967294, 2⟩ (by decide) (by decide) (by decide)

end EmbedHal
